import Mathlib

/-!
Shallow embedding of `src/ei_model.py` (RobustEqualImprovability).

Scalars are embedded as exact rationals (`ℚ`), tensors as `List ℚ`, feature
matrices as `List (List ℚ)`.  External collaborators that the file treats as
opaque differentiable callables (the model forward pass, the effort transform,
the BCE loss, and the Adam optimizer steps) are passed as function parameters,
so every theorem quantifies over all of their possible behaviours.  Fallible
Python code is embedded with `Except PyErr`.
-/

/-- Python-level runtime errors that the embedded code can raise:
a `TypeError`, an `UnboundLocalError` (a local variable referenced before
assignment), and the `RuntimeError` raised by `Tensor.item()` on a tensor
with more than one element. -/
inductive PyErr where
  | typeError
  | unboundLocal
  | runtimeItem
deriving DecidableEq

/-- A torch scalar as an extended value: a finite rational, one of the two
infinities, or NaN.  Used to embed the NaN guard of the training loop. -/
inductive FP where
  | fin (q : ℚ)
  | inf
  | ninf
  | nan
deriving DecidableEq

/-- `torch.isnan` on a scalar tensor. -/
def FP.isnan : FP → Bool
  | .nan => true
  | _ => false

/-- A scalar is a finite number, i.e. neither NaN nor an infinity. -/
def FP.isFinite : FP → Bool
  | .fin _ => true
  | _ => false

/-- `torch.nn.MSELoss(reduction=mean)` of `ys` against the all-ones target
`torch.ones (len ys)`, as used by `fair_batch_proxy` (src/ei_model.py lines
19-28). -/
def mseOnes (ys : List ℚ) : ℚ := ((ys.map fun y => (y - 1) ^ 2).sum) / (ys.length : ℚ)

/-- Boolean-mask selection `Y_hat_max[Z == z]` over the row-aligned pairs
`(Z i, Y_hat_max i)` (src/ei_model.py line 24 and 28). -/
def groupSel (rows : List (ℚ × ℚ)) (z : ℚ) : List ℚ :=
  (rows.filter fun p => decide (p.1 = z)).map Prod.snd

/-- `fair_batch_proxy` (src/ei_model.py lines 17-30): the mean MSE of all
predictions against ones, and for each subgroup `z ∈ {0, 1}` the term
`|loss_z − loss_mean|`, where an empty subgroup has `loss_z = 0`. -/
def fair_batch_proxy (Z Y_hat_max : List ℚ) : ℚ :=
  let loss_mean := mseOnes Y_hat_max
  let rows := Z.zip Y_hat_max
  let g0 := groupSel rows 0
  let g1 := groupSel rows 1
  |(if g0.length = 0 then 0 else mseOnes g0) - loss_mean| +
    |(if g1.length = 0 then 0 else mseOnes g1) - loss_mean|

/-- `covariance_proxy` (src/ei_model.py lines 32-34):
`torch.square(torch.mean((Z - Z.mean()) * Y_hat_max))`. -/
def covariance_proxy (Z Y_hat_max : List ℚ) : ℚ :=
  let zm := Z.sum / (Z.length : ℚ)
  let prods := (Z.zip Y_hat_max).map fun p => (p.1 - zm) * p.2
  (prods.sum / (prods.length : ℚ)) ^ 2

lemma mseOnes_nonneg (ys : List ℚ) : 0 ≤ mseOnes ys := by
  unfold mseOnes
  apply div_nonneg
  · apply List.sum_nonneg
    intro x hx
    obtain ⟨y, _, rfl⟩ := List.mem_map.1 hx
    positivity
  · exact_mod_cast Nat.zero_le _

lemma mseOnes_perm {a b : List ℚ} (h : a.Perm b) : mseOnes a = mseOnes b := by
  unfold mseOnes
  rw [(h.map _).sum_eq, h.length_eq]

lemma groupSel_perm {a b : List (ℚ × ℚ)} (h : a.Perm b) (z : ℚ) :
    (groupSel a z).Perm (groupSel b z) :=
  (h.filter _).map _

lemma fair_batch_proxy_perm {Z Y Z2 Y2 : List ℚ} (hZY : Z.length = Y.length)
    (hZ2 : Z2.length = Y2.length) (h : (Z.zip Y).Perm (Z2.zip Y2)) :
    fair_batch_proxy Z Y = fair_batch_proxy Z2 Y2 := by
  have hY : Y.Perm Y2 := by
    have h1 : (Z.zip Y).map Prod.snd = Y := List.map_snd_zip Z Y (le_of_eq hZY.symm)
    have h2 : (Z2.zip Y2).map Prod.snd = Y2 := List.map_snd_zip Z2 Y2 (le_of_eq hZ2.symm)
    rw [← h1, ← h2]
    exact h.map _
  have hg0 := groupSel_perm h 0
  have hg1 := groupSel_perm h 1
  simp only [fair_batch_proxy]
  rw [mseOnes_perm hY, hg0.length_eq, hg1.length_eq, mseOnes_perm hg0, mseOnes_perm hg1]

lemma covariance_proxy_perm {Z Y Z2 Y2 : List ℚ} (hZY : Z.length = Y.length)
    (hZ2 : Z2.length = Y2.length) (h : (Z.zip Y).Perm (Z2.zip Y2)) :
    covariance_proxy Z Y = covariance_proxy Z2 Y2 := by
  have hZ : Z.Perm Z2 := by
    have h1 : (Z.zip Y).map Prod.fst = Z := List.map_fst_zip Z Y (le_of_eq hZY)
    have h2 : (Z2.zip Y2).map Prod.fst = Z2 := List.map_fst_zip Z2 Y2 (le_of_eq hZ2)
    rw [← h1, ← h2]
    exact h.map _
  simp only [covariance_proxy]
  rw [hZ.sum_eq, hZ.length_eq]
  rw [(h.map (fun p => (p.1 - Z2.sum / (Z2.length : ℚ)) * p.2)).sum_eq,
    (h.map (fun p => (p.1 - Z2.sum / (Z2.length : ℚ)) * p.2)).length_eq]

/-- One layer module of the primary model: per the external model contract it
optionally carries a weight tensor and optionally a bias tensor
(`hasattr(module, ...)` probing in src/ei_model.py lines 83-89). -/
structure Layer where
  weight : Option (List ℚ)
  bias : Option (List ℚ)
deriving DecidableEq

/-- A model is its ordered list of layer modules (`self.model.layers`).  The
forward pass itself is an opaque external callable, passed separately. -/
abbrev Model := List Layer

/-- The shape of one layer: the lengths of its optional parameter tensors. -/
def layerShape (l : Layer) : Option ℕ × Option ℕ :=
  (l.weight.map List.length, l.bias.map List.length)

/-- The shape of a model: its list of layer shapes. -/
def modelShape (m : Model) : List (Option ℕ × Option ℕ) := m.map layerShape

/-- `FairnessDataset` surface used by `EIModel`: row-aligned feature matrix
`X`, label vector `Y` and group vector `Z`. -/
structure Dataset where
  X : List (List ℚ)
  Y : List ℚ
  Z : List ℚ
deriving DecidableEq

/-- The external opaque callables of `EIModel`: the BCE loss, the fairness
proxy, the model forward pass, the effort transform, and the Adam steps of
the inner (maximizing) and outer optimizer.  All theorems below hold for
every instantiation of these. -/
structure ExtFn where
  bce : List ℚ → List ℚ → ℚ
  proxy : List ℚ → List ℚ → ℚ
  fwd : Model → List (List ℚ) → List ℚ
  effort : Model → Dataset → List (List ℚ) → List (List ℚ)
  advStep : Model → ℚ → Model
  outerStep : Model → ℚ → Model

/-- `torch.sum(Y_hat < tau)`: how many predictions fall below the threshold
(src/ei_model.py lines 77 and 158). -/
def countBelow (yh : List ℚ) (tau : ℚ) : ℕ :=
  (yh.filter fun y => decide (y < tau)).length

/-- Row selection `X[(Y_hat < tau), :]` (src/ei_model.py lines 78 and 159). -/
def selectRows (X : List (List ℚ)) (yh : List ℚ) (tau : ℚ) : List (List ℚ) :=
  ((X.zip yh).filter fun p => decide (p.2 < tau)).map Prod.fst

/-- Vector selection `Z[(Y_hat < tau)]` (src/ei_model.py lines 79 and 160). -/
def selectVec (v : List ℚ) (yh : List ℚ) (tau : ℚ) : List ℚ :=
  ((v.zip yh).filter fun p => decide (p.2 < tau)).map Prod.fst

/-- `Tensor.clamp(lo, hi)` with tensor bounds, element-wise
`min (max x lo) hi` (src/ei_model.py lines 111 and 113). -/
def clampT : List ℚ → List ℚ → List ℚ → List ℚ
  | x :: xs, lo :: los, hi :: his => min (max x lo) hi :: clampT xs los his
  | _, _, _ => []

/-- `Tensor.clamp(lo, hi)` with scalar bounds, as used on biases in the
predict path (src/ei_model.py line 192). -/
def clampS (x : List ℚ) (lo hi : ℚ) : List ℚ :=
  x.map fun v => min (max v lo) hi

/-- Apply a function to every weight tensor and every bias tensor of a
model, layer by layer. -/
def mapParams (fw fb : List ℚ → List ℚ) (m : Model) : Model :=
  m.map fun l => ⟨l.weight.map fw, l.bias.map fb⟩

/-- Modelled from the spec: `bounded_init` is defined in `src/model.py`,
which is not under `src/`.  Spec section 6 describes it as an operation
that, given `(weight_min, weight_max)` and `(bias_min, bias_max)` pairs,
returns a copy whose parameters are clamped into that box; we model it as
clamping every weight tensor with `clampW` and every bias tensor with
`clampB` on the deep copy of the model. -/
def bounded_init (clampW clampB : List ℚ → List ℚ) (m : Model) : Model :=
  mapParams clampW clampB m

/-- The four box-bound variables accumulated by the loop over
`self.model.layers` (src/ei_model.py lines 83-89).  They start unbound
(`none`); referencing an unbound one is an `UnboundLocalError`. -/
structure Box where
  wmin : Option (List ℚ)
  wmax : Option (List ℚ)
  bmin : Option (List ℚ)
  bmax : Option (List ℚ)
deriving DecidableEq

/-- One iteration of the box-bound loop of the training path: a layer with a
weight overwrites `weight_min`/`weight_max`, a layer with a bias overwrites
`bias_min`/`bias_max` (src/ei_model.py lines 83-89). -/
def boxUpd (r : ℚ) (acc : Box) (l : Layer) : Box :=
  let acc1 :=
    match l.weight with
    | some w => { acc with wmin := some (w.map fun v => v - r), wmax := some (w.map fun v => v + r) }
    | none => acc
  match l.bias with
  | some b => { acc1 with bmin := some (b.map fun v => v - r), bmax := some (b.map fun v => v + r) }
  | none => acc1

/-- The box bounds produced by the training-path loop over the layers
(src/ei_model.py lines 83-89): shared variables, so the last layer carrying
each attribute wins. -/
def computeBox (r : ℚ) (m : Model) : Box :=
  m.foldl (boxUpd r) ⟨none, none, none, none⟩

/-- The value of a shared variable that each layer with `f` present
overwrites, starting from `a`. -/
def lastFrom (f : Layer → Option (List ℚ)) (a : Option (List ℚ)) (ls : List Layer) :
    Option (List ℚ) :=
  ls.foldl (fun acc l => match f l with | some w => some w | none => acc) a

/-- The parameter tensor of the last layer for which `f` is present (the
value held by a shared variable assigned once per such layer). -/
def lastParam (f : Layer → Option (List ℚ)) (m : Model) : Option (List ℚ) :=
  lastFrom f none m

/-- `Tensor.item()`: the scalar value of a one-element tensor; on any other
tensor it raises a `RuntimeError` (src/ei_model.py lines 169-170). -/
def tensorItem (t : List ℚ) : Except PyErr ℚ :=
  if t.length = 1 then .ok t.headI else .error .runtimeItem

/-- The box-bound variables of the predict path: weight bounds are tensors
but bias bounds are Python floats obtained via `.item()`
(src/ei_model.py lines 164-170). -/
structure BoxP where
  wmin : Option (List ℚ)
  wmax : Option (List ℚ)
  bmin : Option ℚ
  bmax : Option ℚ
deriving DecidableEq

/-- The predict-path loop over the layers (src/ei_model.py lines 164-170):
like the training path but each bias is converted to a scalar with
`.item()`, which fails on multi-element bias tensors. -/
def computeBoxPredict (r : ℚ) : List Layer → BoxP → Except PyErr BoxP
  | [], acc => .ok acc
  | l :: ls, acc =>
    let acc1 :=
      match l.weight with
      | some w =>
        { acc with wmin := some (w.map fun v => v - r), wmax := some (w.map fun v => v + r) }
      | none => acc
    match l.bias with
    | some b =>
      match tensorItem b with
      | .error e => .error e
      | .ok bv => computeBoxPredict r ls { acc1 with bmin := some (bv - r), bmax := some (bv + r) }
    | none => computeBoxPredict r ls acc1

/-- `curr_alpha = alpha * (epoch / n_epochs)` (src/ei_model.py line 68),
with Python true division of the two ints. -/
def curr_alpha (alpha : ℚ) (epoch n_epochs : ℕ) : ℚ :=
  alpha * ((epoch : ℚ) / (n_epochs : ℚ))

/-- State of one projected-gradient-ascent run (src/ei_model.py lines
92-116 and 173-195): the primary model `self.model` visible to the loop, the
adversarial copy being updated, the running proxy value `fair_loss`, the
enclosing `prev_loss` variable (assigned at the start of every iteration),
and whether the loop has hit its `break`. -/
structure PGAState where
  model : Model
  model_adv : Model
  fair_loss : ℚ
  prev_loss : ℚ
  done : Bool
deriving DecidableEq

/-- One inner PGA iteration (src/ei_model.py lines 97-116): record the
previous proxy value, forward the adversarial model, compute the proxy, take
one ascent step (`advStep`), project with the clamp `proj`, and set the
`break` flag when the absolute improvement falls below `abstol`.  A state
whose `break` already fired is left unchanged. -/
def pgaStep (E : ExtFn) (Xe : List (List ℚ)) (Ze : List ℚ) (proj : Model → Model)
    (abstol : ℚ) (s : PGAState) : PGAState :=
  if s.done then s
  else
    let prev := s.fair_loss
    let fl := E.proxy Ze (E.fwd s.model_adv Xe)
    let m1 := E.advStep s.model_adv fl
    let m2 := proj m1
    { model := s.model, model_adv := m2, fair_loss := fl, prev_loss := prev,
      done := decide (|prev - fl| < abstol) }

/-- The PGA loop: `n` applications of `pgaStep` (the `for _ in
range(pga_n_iters)` loop with its `break` flag). -/
def pgaRun (n : ℕ) (E : ExtFn) (Xe : List (List ℚ)) (Ze : List ℚ) (proj : Model → Model)
    (abstol : ℚ) (s : PGAState) : PGAState :=
  (pgaStep E Xe Ze proj abstol)^[n] s

/-- `torch.mean` applied to a Python list: `torch.mean` requires a `Tensor`
as its input, so passing the list `batch_losses` (src/ei_model.py line 132)
raises a `TypeError`.  Spec section 9 records this list/tensor type
mismatch. -/
def torchMeanList (_ : List ℚ) : Except PyErr ℚ := .error .typeError

/-- Whether an embedded Python computation returned normally. -/
def exceptOk {α : Type} : Except PyErr α → Bool
  | .ok _ => true
  | .error _ => false

/-- Element-wise membership in the box of half-width `r` around a reference
tensor: every entry of `xs` paired with the corresponding entry of `ref`
lies within `[ref − r, ref + r]`. -/
def inPMBox (r : ℚ) (xs ref : List ℚ) : Prop :=
  ∀ p ∈ xs.zip ref, p.2 - r ≤ p.1 ∧ p.1 ≤ p.2 + r

namespace EIModel

/-- One training mini-batch of `EIModel.train` (src/ei_model.py lines
70-129): forward the primary model, take `(1 − lamb) ·` BCE loss, and if any
prediction is below `tau`, select the below-threshold rows, apply the effort
transform, build the (shared-variable) box bounds, run the inner PGA solver
on a bounded-initialized deep copy, re-evaluate the proxy on the final
adversarial model, and add `lamb ·` that value.  Returns the primary model
after the outer optimizer step, the combined batch loss that was
backpropagated, and the value of the function-level `prev_loss` variable
after the batch (the inner loop assigns it on line 98).  The `torch.isnan`
guard of line 124 cannot fire in exact rational arithmetic, where every
value is finite; `batchOptStep` below embeds that guard over extended
scalars.  An unbound box variable is an `UnboundLocalError`. -/
def trainBatch (E : ExtFn) (tau lamb currAlpha abstol : ℚ) (iters : ℕ) (ds : Dataset)
    (m : Model) (prev : ℚ) (batch : List (List ℚ) × List ℚ × List ℚ) :
    Except PyErr (Model × ℚ × ℚ) :=
  let Y_hat := E.fwd m batch.1
  let batch_pred_loss := E.bce Y_hat batch.2.1
  let loss1 := (1 - lamb) * batch_pred_loss
  if 0 < countBelow Y_hat tau then
    let X_e := selectRows batch.1 Y_hat tau
    let Z_e := selectVec batch.2.2 Y_hat tau
    let X_hat_max := E.effort m ds X_e
    match computeBox currAlpha m with
    | ⟨some wmin, some wmax, some bmin, some bmax⟩ =>
      let proj := mapParams (fun t => clampT t wmin wmax) (fun t => clampT t bmin bmax)
      let adv0 := bounded_init (fun t => clampT t wmin wmax) (fun t => clampT t bmin bmax) m
      let s := pgaRun iters E X_hat_max Z_e proj abstol ⟨m, adv0, 0, prev, false⟩
      let Y_hat_max := E.fwd s.model_adv X_hat_max
      let batch_fair_loss := E.proxy Z_e Y_hat_max
      let loss := loss1 + lamb * batch_fair_loss
      .ok (E.outerStep m loss, loss, s.prev_loss)
    | _ => .error .unboundLocal
  else
    let loss := loss1 + lamb * 0
    .ok (E.outerStep m loss, loss, prev)

/-- The inner `for ... in enumerate(data_loader)` loop of one epoch
(src/ei_model.py lines 70-129), threading the primary model, the
`prev_loss` variable and the `batch_losses` list through the batches. -/
def trainBatches (E : ExtFn) (tau lamb currAlpha abstol : ℚ) (iters : ℕ) (ds : Dataset) :
    List (List (List ℚ) × List ℚ × List ℚ) → Model → ℚ → List ℚ →
    Except PyErr (Model × ℚ × List ℚ)
  | [], m, prev, acc => .ok (m, prev, acc)
  | b :: bs, m, prev, acc =>
    match trainBatch E tau lamb currAlpha abstol iters ds m prev b with
    | .error e => .error e
    | .ok r => trainBatches E tau lamb currAlpha abstol iters ds bs r.1 r.2.2 (acc ++ [r.2.1])

/-- The epoch loop of `EIModel.train` (src/ei_model.py lines 65-143), with
the remaining number of epochs as fuel and the running epoch index `e`
determining `curr_alpha`.  After the batches of an epoch, line 132 computes
`torch.abs(torch.mean(batch_losses) - prev_loss)` — `batch_losses` is a
Python list, so `torch.mean` raises — and on success training would return
early when that difference is below `abstol`. -/
def trainFrom (E : ExtFn) (tau lamb alpha abstol : ℚ) (iters n_epochs : ℕ) (ds : Dataset)
    (batches : List (List (List ℚ) × List ℚ × List ℚ)) :
    ℕ → ℕ → Model → ℚ → Except PyErr Model
  | 0, _, m, _ => .ok m
  | fuel + 1, e, m, prev =>
    match trainBatches E tau lamb (curr_alpha alpha e n_epochs) abstol iters ds batches m prev [] with
    | .error err => .error err
    | .ok r =>
      match torchMeanList r.2.2 with
      | .error err => .error err
      | .ok mu =>
        if |mu - r.2.1| < abstol then .ok r.1
        else trainFrom E tau lamb alpha abstol iters n_epochs ds batches fuel (e + 1) r.1 r.2.1

/-- `EIModel.train` (src/ei_model.py lines 44-143): run `n_epochs` epochs
over the given batches (the `DataLoader` with its fixed-seed shuffle is an
external collaborator, so the batch decomposition is a parameter), starting
from `prev_loss = torch.tensor(0.)`. -/
def train (E : ExtFn) (tau lamb alpha abstol : ℚ) (iters n_epochs : ℕ) (ds : Dataset)
    (batches : List (List (List ℚ) × List ℚ × List ℚ)) (m : Model) : Except PyErr Model :=
  trainFrom E tau lamb alpha abstol iters n_epochs ds batches n_epochs 0 m 0

/-- The optimizer-step guard of the outer loop (src/ei_model.py lines
123-129) over extended scalars: `optimizer.zero_grad()`, then if
`torch.isnan(batch_loss)` the loop `continue`s — no backward, no step, no
append to `batch_losses` — and otherwise it backpropagates, steps and
appends the loss.  The returned Bool records whether `optimizer.step()`
ran. -/
def batchOptStep (outerStep : Model → Model) (m : Model) (batch_loss : FP)
    (batch_losses : List FP) : Model × List FP × Bool :=
  if batch_loss.isnan then (m, batch_losses, false)
  else (outerStep m, batch_losses ++ [batch_loss], true)

/-- Folding the guarded optimizer step over the combined losses of the
batches of an epoch: each batch either advances the model or is skipped,
and the loop always continues with the next batch. -/
def runBatchesFP (outerStep : Model → Model) (m : Model) (ls : List FP) : Model :=
  ls.foldl (fun acc l => (batchOptStep outerStep acc l []).1) m

/-- The tuple returned by `EIModel.predict` (src/ei_model.py line 207),
together with the object state it leaves behind: the retained adversarial
model `self.model_adv` and the primary model `self.model`. -/
structure PredictOut where
  Y_hat : List ℚ
  Y_hat_max : List ℚ
  pred_loss : ℚ
  fair_loss : ℚ
  model_adv : Model
  model : Model
deriving DecidableEq

/-- `EIModel.predict` (src/ei_model.py lines 146-207).  When at least one
prediction is below `tau`, the box loop extracts scalar bias bounds with
`.item()` (which can raise), the inner PGA loop runs on a
bounded-initialized deep copy, and `Y_hat_max` is re-evaluated on
`X_hat_max` while `fair_loss` keeps its last in-loop value.  When no
prediction is below `tau`, the branch sets `fair_loss = 0` and
`self.model_adv = deepcopy(self.model)`, but line 203 then evaluates
`self.model_adv(X_hat_max)` with the local `X_hat_max` never assigned (the
assignment on line 202 is commented out), which raises an
`UnboundLocalError`. -/
def predict (E : ExtFn) (tau alpha abstol : ℚ) (iters : ℕ) (m : Model) (ds : Dataset) :
    Except PyErr PredictOut :=
  let Y_hat := E.fwd m ds.X
  let pred_loss := E.bce Y_hat ds.Y
  if 0 < countBelow Y_hat tau then
    let X_e := selectRows ds.X Y_hat tau
    let Z_e := selectVec ds.Z Y_hat tau
    let X_hat_max := E.effort m ds X_e
    match computeBoxPredict alpha m ⟨none, none, none, none⟩ with
    | .error e => .error e
    | .ok box =>
      match box with
      | ⟨some wmin, some wmax, some bmin, some bmax⟩ =>
        let proj := mapParams (fun t => clampT t wmin wmax) (fun t => clampS t bmin bmax)
        let adv0 := bounded_init (fun t => clampT t wmin wmax) (fun t => clampS t bmin bmax) m
        let s := pgaRun iters E X_hat_max Z_e proj abstol ⟨m, adv0, 0, 0, false⟩
        let Y_hat_max := E.fwd s.model_adv X_hat_max
        .ok ⟨Y_hat, Y_hat_max, pred_loss, s.fair_loss, s.model_adv, m⟩
      | _ => .error .unboundLocal
  else
    .error .unboundLocal

/-- Spec-side definition for claim C7, following the claim text: the
fairness loss of a batch is 0 when no prediction of the batch is below
`tau`, and otherwise it is the proxy value of the adversarial model
returned by the inner solver, evaluated on the effort-transformed
below-threshold subset. -/
def specFairLoss (E : ExtFn) (tau currAlpha abstol : ℚ) (iters : ℕ) (ds : Dataset)
    (m : Model) (prev : ℚ) (batch : List (List ℚ) × List ℚ × List ℚ) : Except PyErr ℚ :=
  let Y_hat := E.fwd m batch.1
  if 0 < countBelow Y_hat tau then
    match computeBox currAlpha m with
    | ⟨some wmin, some wmax, some bmin, some bmax⟩ =>
      let Xp := E.effort m ds (selectRows batch.1 Y_hat tau)
      let Zp := selectVec batch.2.2 Y_hat tau
      let adv := (pgaRun iters E Xp Zp
        (mapParams (fun t => clampT t wmin wmax) (fun t => clampT t bmin bmax)) abstol
        ⟨m, bounded_init (fun t => clampT t wmin wmax) (fun t => clampT t bmin bmax) m,
          0, prev, false⟩).model_adv
      .ok (E.proxy Zp (E.fwd adv Xp))
    | _ => .error .unboundLocal
  else .ok 0

/-- Spec-side definition for claim C7: the combined batch loss
`(1 − lamb) · prediction_loss + lamb · fairness_loss`. -/
def specBatchLoss (E : ExtFn) (tau lamb currAlpha abstol : ℚ) (iters : ℕ) (ds : Dataset)
    (m : Model) (prev : ℚ) (batch : List (List ℚ) × List ℚ × List ℚ) : Except PyErr ℚ :=
  (specFairLoss E tau currAlpha abstol iters ds m prev batch).map fun f =>
    (1 - lamb) * E.bce (E.fwd m batch.1) batch.2.1 + lamb * f

end EIModel

/-- C2 counterexample: for the non-empty batch `Z = [0]`, `Y_hat = [0]` only
subgroup 0 is present, yet `fair_batch_proxy` returns 1, not 0: the present
subgroup contributes `|loss_0 − loss_mean| = 0` but the absent subgroup
contributes `|0 − loss_mean| = loss_mean = 1`. -/
theorem C2_counterexample :
    fair_batch_proxy [0] [0] = 1 ∧ fair_batch_proxy [0] [0] ≠ 0 := by
  constructor <;> norm_num [fair_batch_proxy, groupSel, mseOnes]

/-- C2 (amended): for every non-empty prediction batch `Y_hat` and group
vector `Z` of the same length in which only one subgroup is present (all
`Z = 0` or all `Z = 1`), `fair_batch_proxy Z Y_hat` returns the overall
mean squared error against the all-ones target (`mseOnes Y_hat`), not 0:
the present subgroup contributes a zero term and the absent subgroup
contributes `|0 − loss_mean| = loss_mean`. -/
theorem C2_single_group_value (Z Y : List ℚ) (hlen : Z.length = Y.length)
    (hne : 0 < Y.length) (h : (∀ z ∈ Z, z = 0) ∨ (∀ z ∈ Z, z = 1)) :
    fair_batch_proxy Z Y = mseOnes Y := by
  have hsnd : (Z.zip Y).map Prod.snd = Y := List.map_snd_zip Z Y (le_of_eq hlen.symm)
  have hYne : Y.length ≠ 0 := Nat.pos_iff_ne_zero.mp hne
  obtain h | h := h
  · have hfull : groupSel (Z.zip Y) 0 = Y := by
      unfold groupSel
      rw [List.filter_eq_self.mpr, hsnd]
      rintro ⟨a, b⟩ hp
      simp [h a (List.of_mem_zip hp).1]
    have hempty : groupSel (Z.zip Y) 1 = [] := by
      unfold groupSel
      rw [List.filter_eq_nil_iff.mpr, List.map_nil]
      rintro ⟨a, b⟩ hp
      simp [h a (List.of_mem_zip hp).1]
    simp only [fair_batch_proxy, hfull, hempty, List.length_nil, if_true, if_neg hYne,
      sub_self, abs_zero, zero_sub, abs_neg, zero_add, abs_of_nonneg (mseOnes_nonneg Y)]
  · have hfull : groupSel (Z.zip Y) 1 = Y := by
      unfold groupSel
      rw [List.filter_eq_self.mpr, hsnd]
      rintro ⟨a, b⟩ hp
      simp [h a (List.of_mem_zip hp).1]
    have hempty : groupSel (Z.zip Y) 0 = [] := by
      unfold groupSel
      rw [List.filter_eq_nil_iff.mpr, List.map_nil]
      rintro ⟨a, b⟩ hp
      simp [h a (List.of_mem_zip hp).1]
    simp only [fair_batch_proxy, hfull, hempty, List.length_nil, if_true, if_neg hYne,
      sub_self, abs_zero, zero_sub, abs_neg, add_zero, abs_of_nonneg (mseOnes_nonneg Y)]

/-- C2 witness: the amended statement at the concrete single-subgroup batch
`Z = [0, 0]`, `Y_hat = [2, 3]`. -/
theorem C2_witness :
    ([0, 0] : List ℚ).length = ([2, 3] : List ℚ).length ∧
      0 < ([2, 3] : List ℚ).length ∧
      fair_batch_proxy [0, 0] [2, 3] = mseOnes [2, 3] :=
  ⟨rfl, by decide,
    C2_single_group_value [0, 0] [2, 3] rfl (by decide) (Or.inl (by norm_num))⟩

/-- C8: for every pair of equal-length, non-empty inputs `Z`, `Y_hat` and
every identical row permutation of both (expressed as a permutation of the
zipped row lists), `fair_batch_proxy` and `covariance_proxy` return the
same scalar as on the unpermuted inputs.  In the exact rational embedding
every returned scalar is finite; non-emptiness keeps the means that torch
computes well defined. -/
theorem C8_proxy_permutation_invariant (Z Y Z2 Y2 : List ℚ)
    (hZY : Z.length = Y.length) (hZ2 : Z2.length = Y2.length)
    (hne : 0 < Y.length) (h : (Z.zip Y).Perm (Z2.zip Y2)) :
    fair_batch_proxy Z Y = fair_batch_proxy Z2 Y2 ∧
      covariance_proxy Z Y = covariance_proxy Z2 Y2 :=
  ⟨fair_batch_proxy_perm hZY hZ2 h, covariance_proxy_perm hZY hZ2 h⟩

/-- C8 witness: swapping the two rows of `Z = [0, 1]`, `Y_hat = [0, 2]`
leaves both proxies unchanged. -/
theorem C8_witness :
    0 < ([0, 2] : List ℚ).length ∧
      fair_batch_proxy [0, 1] [0, 2] = fair_batch_proxy [1, 0] [2, 0] ∧
      covariance_proxy [0, 1] [0, 2] = covariance_proxy [1, 0] [2, 0] :=
  ⟨by decide,
    C8_proxy_permutation_invariant [0, 1] [0, 2] [1, 0] [2, 0] rfl rfl (by decide)
      (List.Perm.swap _ _ [])⟩

/-- C4 counterexample: a batch whose combined loss is infinite is NOT a
finite number, yet the optimizer step is not skipped — `torch.isnan` is
false on `inf`, so `backward()` and `optimizer.step()` run and the primary
model can change (here the opaque Adam step moves the weight from 0
to 1). -/
theorem C4_counterexample :
    FP.isFinite FP.inf = false ∧
      (EIModel.batchOptStep (fun _ => [⟨some [1], none⟩]) [⟨some [0], none⟩] FP.inf []).2.2
        = true ∧
      (EIModel.batchOptStep (fun _ => [⟨some [1], none⟩]) [⟨some [0], none⟩] FP.inf []).1
        ≠ [⟨some [0], none⟩] := by
  refine ⟨rfl, rfl, ?_⟩
  simp [EIModel.batchOptStep, FP.isnan, Layer.mk.injEq]

/-- C4 (amended): the outer loop skips the optimizer step exactly when the
combined batch loss is NaN — the primary model and the collected loss list
are then unchanged and no step runs — while a finite or infinite (non-NaN)
loss always takes the step; and a NaN batch still advances the loop, i.e.
the fold over the remaining batches proceeds as if the NaN batch were not
there. -/
theorem C4_nan_skip (outerStep : Model → Model) (m : Model) (ls : List FP) (q : ℚ)
    (rest : List FP) :
    EIModel.batchOptStep outerStep m FP.nan ls = (m, ls, false) ∧
      EIModel.batchOptStep outerStep m (FP.fin q) ls = (outerStep m, ls ++ [FP.fin q], true) ∧
      EIModel.batchOptStep outerStep m FP.inf ls = (outerStep m, ls ++ [FP.inf], true) ∧
      EIModel.batchOptStep outerStep m FP.ninf ls = (outerStep m, ls ++ [FP.ninf], true) ∧
      EIModel.runBatchesFP outerStep m (FP.nan :: rest) = EIModel.runBatchesFP outerStep m rest := by
  refine ⟨rfl, rfl, rfl, rfl, ?_⟩
  simp [EIModel.runBatchesFP, EIModel.batchOptStep, FP.isnan]

/-- A concrete instantiation of the opaque external callables for concrete
witnesses: BCE loss constantly 2, the mean-gap proxy, a forward pass giving
every row the score 1, the identity effort transform, and identity
optimizer steps (the Adam step with zero gradient). -/
def extAbove : ExtFn :=
  ⟨fun _ _ => 2, fair_batch_proxy, fun _ _ => [1], fun _ _ x => x, fun m _ => m, fun m _ => m⟩

/-- Like `extAbove` but the forward pass gives every row the score 0, so
with threshold 1 every sample is below the threshold. -/
def extBelow : ExtFn :=
  ⟨fun _ _ => 2, fair_batch_proxy, fun _ _ => [0], fun _ _ x => x, fun m _ => m, fun m _ => m⟩

/-- A one-layer logistic-regression-like model: one weight tensor and one
bias tensor. -/
def mLR : Model := [⟨some [1], some [0]⟩]

/-- A two-layer model whose layers both carry a (scalar) weight and bias;
the two weight values differ, which exposes the shared-variable box
bounds. -/
def mTwo : Model := [⟨some [0], some [0]⟩, ⟨some [10], some [0]⟩]

/-- A one-row dataset. -/
def dsOne : Dataset := ⟨[[0]], [1], [0]⟩

/-- C1: when every prediction of the primary model is at least `tau` (the
below-threshold mask is empty), `EIModel.predict` does not return four
values with zero fairness loss — it raises an `UnboundLocalError`, because
line 203 evaluates `self.model_adv(X_hat_max)` and the local `X_hat_max`
is only assigned inside the below-threshold branch (the assignment on line
202 is commented out). -/
theorem C1_predict_no_below_tau_unbound_local (E : ExtFn) (tau alpha abstol : ℚ)
    (iters : ℕ) (m : Model) (ds : Dataset)
    (h : countBelow (E.fwd m ds.X) tau = 0) :
    EIModel.predict E tau alpha abstol iters m ds = .error .unboundLocal := by
  simp [EIModel.predict, h]

/-- C1 witness: a concrete model and dataset on which every prediction is 1
and the threshold is 1, so the mask is empty and `predict` raises. -/
theorem C1_witness :
    countBelow (extAbove.fwd mLR dsOne.X) 1 = 0 ∧
      EIModel.predict extAbove 1 1 1 2 mLR dsOne = .error .unboundLocal :=
  ⟨by decide, C1_predict_no_below_tau_unbound_local extAbove 1 1 1 2 mLR dsOne (by decide)⟩

/-- C3: the epoch-level early-termination check never compares epoch means:
at the end of every epoch line 132 evaluates
`torch.mean(batch_losses)` where `batch_losses` is a Python list of floats,
and `torch.mean` requires a tensor, so any training run whose first epoch
completes its batch loop raises a `TypeError` instead of either
terminating early or running all epochs. -/
theorem C3_epoch_mean_type_error (E : ExtFn) (tau lamb alpha abstol : ℚ)
    (iters n_epochs : ℕ) (ds : Dataset)
    (batches : List (List (List ℚ) × List ℚ × List ℚ)) (m : Model)
    (r : Model × ℚ × List ℚ) (hn : 0 < n_epochs)
    (hb : EIModel.trainBatches E tau lamb (curr_alpha alpha 0 n_epochs) abstol iters ds batches
      m 0 [] = .ok r) :
    EIModel.train E tau lamb alpha abstol iters n_epochs ds batches m = .error .typeError := by
  obtain ⟨k, rfl⟩ : ∃ k, n_epochs = k + 1 := ⟨n_epochs - 1, by omega⟩
  simp [EIModel.train, EIModel.trainFrom, hb, torchMeanList]

/-- C3 witness: a one-epoch run over an empty batch list completes its
(empty) batch loop and then raises the `TypeError`. -/
theorem C3_witness :
    (0 : ℕ) < 1 ∧
      EIModel.trainBatches extAbove 1 1 (curr_alpha 1 0 1) 1 2 dsOne [] ([] : Model) 0 []
        = .ok ([], 0, []) ∧
      EIModel.train extAbove 1 1 1 1 2 1 dsOne [] ([] : Model) = .error .typeError :=
  ⟨by decide, rfl,
    C3_epoch_mean_type_error extAbove 1 1 1 1 2 1 dsOne [] [] ([], 0, []) (by decide) rfl⟩

lemma pgaStep_model (E : ExtFn) (Xe : List (List ℚ)) (Ze : List ℚ) (proj : Model → Model)
    (abstol : ℚ) (s : PGAState) : (pgaStep E Xe Ze proj abstol s).model = s.model := by
  unfold pgaStep
  split <;> rfl

lemma pgaRun_model (n : ℕ) (E : ExtFn) (Xe : List (List ℚ)) (Ze : List ℚ)
    (proj : Model → Model) (abstol : ℚ) (s : PGAState) :
    (pgaRun n E Xe Ze proj abstol s).model = s.model := by
  induction n generalizing s with
  | zero => rfl
  | succ k ih =>
    unfold pgaRun at ih ⊢
    rw [Function.iterate_succ_apply, ih, pgaStep_model]

lemma predict_model_map (E : ExtFn) (tau alpha abstol : ℚ) (iters : ℕ) (m : Model)
    (ds : Dataset) :
    (EIModel.predict E tau alpha abstol iters m ds).map EIModel.PredictOut.model
      = (EIModel.predict E tau alpha abstol iters m ds).map fun _ => m := by
  unfold EIModel.predict
  by_cases h : 0 < countBelow (E.fwd m ds.X) tau
  · simp only [if_pos h]
    repeat' first
    | rfl
    | split
  · simp only [if_neg h]
    rfl

/-- C9: the inner adversarial solver never modifies the primary model.
Every PGA iteration, and therefore every PGA run of any length, leaves the
`self.model` component of the loop state untouched (all updates and
clampings are applied to the adversarial copy only), and the primary model
an `EIModel.predict` call leaves behind is — whether the call returns or
raises — exactly the model it started from. -/
theorem C9_inner_solver_frame (E : ExtFn) (Xe : List (List ℚ)) (Ze : List ℚ)
    (proj : Model → Model) (abstol tau alpha : ℚ) (s : PGAState) (n iters : ℕ)
    (m : Model) (ds : Dataset) :
    (pgaStep E Xe Ze proj abstol s).model = s.model ∧
      (pgaRun n E Xe Ze proj abstol s).model = s.model ∧
      (EIModel.predict E tau alpha abstol iters m ds).map EIModel.PredictOut.model
        = (EIModel.predict E tau alpha abstol iters m ds).map fun _ => m :=
  ⟨pgaStep_model E Xe Ze proj abstol s, pgaRun_model n E Xe Ze proj abstol s,
    predict_model_map E tau alpha abstol iters m ds⟩

/-- C7: for every training batch, the loss returned by the batch step — the
loss that is backpropagated and fed to the outer optimizer step — equals
`(1 − lamb) · prediction_loss + lamb · fairness_loss`, where the fairness
loss is 0 whenever no prediction of the batch is below `tau` and otherwise
is the proxy value of the adversarial model produced by the inner solver,
evaluated on the effort-transformed below-threshold subset
(`specBatchLoss` states exactly this formula); and the new primary model is
the outer optimizer step applied at that same loss. -/
theorem C7_batch_loss_formula (E : ExtFn) (tau lamb currAlpha abstol : ℚ) (iters : ℕ)
    (ds : Dataset) (m : Model) (prev : ℚ) (batch : List (List ℚ) × List ℚ × List ℚ) :
    (EIModel.trainBatch E tau lamb currAlpha abstol iters ds m prev batch).map (fun r => r.2.1)
      = EIModel.specBatchLoss E tau lamb currAlpha abstol iters ds m prev batch ∧
    (EIModel.trainBatch E tau lamb currAlpha abstol iters ds m prev batch).map (fun r => r.1)
      = (EIModel.specBatchLoss E tau lamb currAlpha abstol iters ds m prev batch).map
          (fun l => E.outerStep m l) := by
  unfold EIModel.trainBatch EIModel.specBatchLoss EIModel.specFairLoss
  constructor <;>
  · by_cases h : 0 < countBelow (E.fwd m batch.1) tau
    · simp only [if_pos h]
      split <;> rfl
    · simp only [if_neg h]
      rfl

lemma boxUpd_foldl (r : ℚ) (ls : List Layer) :
    ∀ (aW aB : Option (List ℚ)),
      ls.foldl (boxUpd r)
          ⟨aW.map (List.map fun v => v - r), aW.map (List.map fun v => v + r),
            aB.map (List.map fun v => v - r), aB.map (List.map fun v => v + r)⟩
        = ⟨(lastFrom Layer.weight aW ls).map (List.map fun v => v - r),
            (lastFrom Layer.weight aW ls).map (List.map fun v => v + r),
            (lastFrom Layer.bias aB ls).map (List.map fun v => v - r),
            (lastFrom Layer.bias aB ls).map (List.map fun v => v + r)⟩ := by
  induction ls with
  | nil => intro aW aB; rfl
  | cons l ls ih =>
    intro aW aB
    cases hw : l.weight with
    | none =>
      cases hb : l.bias with
      | none =>
        simp only [List.foldl_cons, lastFrom, boxUpd, hw, hb] at ih ⊢
        exact ih aW aB
      | some bv =>
        simp only [List.foldl_cons, lastFrom, boxUpd, hw, hb] at ih ⊢
        exact ih aW (some bv)
    | some wv =>
      cases hb : l.bias with
      | none =>
        simp only [List.foldl_cons, lastFrom, boxUpd, hw, hb] at ih ⊢
        exact ih (some wv) aB
      | some bv =>
        simp only [List.foldl_cons, lastFrom, boxUpd, hw, hb] at ih ⊢
        exact ih (some wv) (some bv)

/-- The shared box-bound variables of the training path hold, after the loop
over the layers, the bounds built from the LAST layer carrying a weight and
the LAST layer carrying a bias. -/
lemma computeBox_eq (r : ℚ) (m : Model) :
    computeBox r m
      = ⟨(lastParam Layer.weight m).map (List.map fun v => v - r),
          (lastParam Layer.weight m).map (List.map fun v => v + r),
          (lastParam Layer.bias m).map (List.map fun v => v - r),
          (lastParam Layer.bias m).map (List.map fun v => v + r)⟩ := by
  have h := boxUpd_foldl r m none none
  simpa [computeBox, lastParam] using h

lemma clampT_pm {r : ℚ} (hr : 0 ≤ r) :
    ∀ (xs ref : List ℚ),
      inPMBox r (clampT xs (ref.map fun v => v - r) (ref.map fun v => v + r)) ref
  | [], ref => by
    intro p hp
    simp [clampT] at hp
  | x :: xs, [] => by
    intro p hp
    simp [clampT] at hp
  | x :: xs, w :: ws => by
    intro p hp
    simp only [List.map_cons, clampT, List.zip_cons_cons, List.mem_cons] at hp
    rcases hp with rfl | hp
    · exact ⟨le_min (le_max_right _ _) (by linarith), min_le_right _ _⟩
    · exact clampT_pm hr xs ws p hp

/-- C5 counterexample: take the two-layer model `mTwo` with layer weights
`[0]` and `[10]` and radius 1.  The shared-variable box is `[9, 11]` (built
from the LAST layer only), `bounded_init` clamps the copied layer-0 weight 0
to 9, and after the first PGA iteration (with a zero-gradient Adam step) the
layer-0 weight is still 9 — outside the box `[0 − 1, 0 + 1]` of its own
primary value 0, refuting the per-parameter projection invariant as
claimed. -/
theorem C5_counterexample :
    (pgaStep extBelow [[0]] [0]
        (mapParams (fun t => clampT t [9] [11]) (fun t => clampT t [-1] [1])) 1
        ⟨mTwo, bounded_init (fun t => clampT t [9] [11]) (fun t => clampT t [-1] [1]) mTwo,
          0, 0, false⟩).model_adv.head? = some ⟨some [9], some [0]⟩ ∧
      mTwo.head? = some ⟨some [0], some [0]⟩ ∧
      ¬ ((0 : ℚ) - 1 ≤ 9 ∧ (9 : ℚ) ≤ 0 + 1) := by
  refine ⟨?_, rfl, by norm_num⟩
  norm_num [pgaStep, mapParams, bounded_init, clampT, extBelow, mTwo]

/-- C5 (amended): the box the training path actually builds is the one
around the LAST layer carrying each attribute (`computeBox_eq`), and after
every inner PGA iteration every weight and bias tensor of the adversarial
model lies element-wise within THAT shared box
`[last-layer value − radius, last-layer value + radius]`, for every radius
`≥ 0` and every behaviour of the ascent step.  For a model with a single
weight-carrying and a single bias-carrying layer this is the per-parameter
box of the original claim. -/
theorem C5_projection_into_last_layer_box (E : ExtFn) (Xe : List (List ℚ)) (Ze : List ℚ)
    (abstol r : ℚ) (hr : 0 ≤ r) (m : Model) (w0 b0 : List ℚ)
    (hw : lastParam Layer.weight m = some w0) (hb : lastParam Layer.bias m = some b0)
    (s : PGAState) (hdone : s.done = false) :
    computeBox r m = ⟨some (w0.map fun v => v - r), some (w0.map fun v => v + r),
        some (b0.map fun v => v - r), some (b0.map fun v => v + r)⟩ ∧
      ∀ l ∈ (pgaStep E Xe Ze
          (mapParams (fun t => clampT t (w0.map fun v => v - r) (w0.map fun v => v + r))
            (fun t => clampT t (b0.map fun v => v - r) (b0.map fun v => v + r)))
          abstol s).model_adv,
        (∀ ws, l.weight = some ws → inPMBox r ws w0) ∧
        (∀ bs, l.bias = some bs → inPMBox r bs b0) := by
  constructor
  · rw [computeBox_eq, hw, hb]
    rfl
  · intro l hl
    simp only [pgaStep, hdone, if_false, Bool.false_eq_true, mapParams, List.mem_map] at hl
    obtain ⟨l0, _, rfl⟩ := hl
    constructor
    · intro ws hws
      obtain ⟨w1, hw1, rfl⟩ := Option.map_eq_some'.mp hws
      exact clampT_pm hr w1 w0
    · intro bs hbs
      obtain ⟨b1, hb1, rfl⟩ := Option.map_eq_some'.mp hbs
      exact clampT_pm hr b1 b0

/-- C5 witness: the amended statement instantiated on the two-layer model
`mTwo` with radius 1. -/
theorem C5_witness :
    (0 : ℚ) ≤ 1 ∧ lastParam Layer.weight mTwo = some [10] ∧
      lastParam Layer.bias mTwo = some [0] ∧
      (computeBox 1 mTwo = ⟨some ([10].map fun v => v - 1), some ([10].map fun v => v + 1),
          some ([0].map fun v => v - 1), some ([0].map fun v => v + 1)⟩ ∧
        ∀ l ∈ (pgaStep extAbove [] []
            (mapParams (fun t => clampT t ([10].map fun v => v - 1) ([10].map fun v => v + 1))
              (fun t => clampT t ([0].map fun v => v - 1) ([0].map fun v => v + 1)))
            1 ⟨mTwo, mTwo, 0, 0, false⟩).model_adv,
          (∀ ws, l.weight = some ws → inPMBox 1 ws [10]) ∧
          (∀ bs, l.bias = some bs → inPMBox 1 bs [0])) :=
  ⟨by norm_num, rfl, rfl,
    C5_projection_into_last_layer_box extAbove [] [] 1 1 (by norm_num) mTwo [10] [0] rfl rfl
      ⟨mTwo, mTwo, 0, 0, false⟩ rfl⟩

lemma clampT_self : ∀ (x w : List ℚ), x.length = w.length → clampT x w w = w
  | [], [], _ => rfl
  | [], w :: ws, h => by simp at h
  | x :: xs, [], h => by simp at h
  | x :: xs, w :: ws, h => by
    simp only [clampT]
    rw [min_eq_right (le_max_right x w), clampT_self xs ws (by simpa using h)]

lemma modelShape_single {mm : Model} {w b : List ℚ}
    (h : modelShape mm = modelShape [⟨some w, some b⟩]) :
    ∃ w1 b1, mm = [⟨some w1, some b1⟩] ∧ w1.length = w.length ∧ b1.length = b.length := by
  cases mm with
  | nil => simp [modelShape] at h
  | cons l ls =>
    cases ls with
    | nil =>
      simp only [modelShape, List.map_cons, List.map_nil, layerShape, List.cons.injEq, and_true,
        Prod.mk.injEq] at h
      obtain ⟨hw, hb⟩ := h
      obtain ⟨w1, hw1, hw2⟩ := Option.map_eq_some'.mp hw
      obtain ⟨b1, hb1, hb2⟩ := Option.map_eq_some'.mp hb
      refine ⟨w1, b1, ?_, hw2, hb2⟩
      cases l
      simp_all
    | cons l2 ls2 => simp [modelShape] at h

/-- Clamping a same-shape model into the degenerate (radius-0) box around a
single-layer model pins it to that model. -/
lemma proj_zero_single {mm : Model} {w b : List ℚ}
    (h : modelShape mm = modelShape [⟨some w, some b⟩]) :
    mapParams (fun t => clampT t (w.map fun v => v - 0) (w.map fun v => v + 0))
      (fun t => clampT t (b.map fun v => v - 0) (b.map fun v => v + 0)) mm
      = [⟨some w, some b⟩] := by
  obtain ⟨w1, b1, rfl, hw, hb⟩ := modelShape_single h
  simp [mapParams]
  exact ⟨clampT_self w1 w hw, clampT_self b1 b hb⟩

/-- At radius 0, every PGA iterate of a shape-preserving ascent step keeps
the adversarial copy of a single-layer model equal to the primary model. -/
lemma pgaRun_zero_radius (E : ExtFn)
    (hshape : ∀ mm q, modelShape (E.advStep mm q) = modelShape mm)
    (w b : List ℚ) (Xe : List (List ℚ)) (Ze : List ℚ) (abstol : ℚ) :
    ∀ (n : ℕ) (s : PGAState), s.model_adv = [⟨some w, some b⟩] →
      (pgaRun n E Xe Ze
        (mapParams (fun t => clampT t (w.map fun v => v - 0) (w.map fun v => v + 0))
          (fun t => clampT t (b.map fun v => v - 0) (b.map fun v => v + 0))) abstol s).model_adv
        = [⟨some w, some b⟩] := by
  intro n
  induction n with
  | zero => intro s hs; exact hs
  | succ k ih =>
    intro s hs
    unfold pgaRun at ih ⊢
    rw [Function.iterate_succ_apply]
    apply ih
    unfold pgaStep
    split
    · exact hs
    · apply proj_zero_single
      rw [hshape, hs]

/-- C6 counterexample: for the two-layer model `mTwo` at epoch 0 the radius
`curr_alpha` is 0, but the box the code builds is the degenerate box around
the LAST layer (`[10, 10]` for both weights), so `bounded_init` pins the
layer-0 adversarial weight to 10 and the inner solver returns an
adversarial model different from the primary one. -/
theorem C6_counterexample :
    curr_alpha 1 0 10 = 0 ∧
      computeBox 0 mTwo = ⟨some [10], some [10], some [0], some [0]⟩ ∧
      (pgaRun 1 extBelow [[0]] [0]
          (mapParams (fun t => clampT t [10] [10]) (fun t => clampT t [0] [0])) 1
          ⟨mTwo, bounded_init (fun t => clampT t [10] [10]) (fun t => clampT t [0] [0]) mTwo,
            0, 0, false⟩).model_adv
        = [⟨some [10], some [0]⟩, ⟨some [10], some [0]⟩] ∧
      [⟨some [10], some [0]⟩, ⟨some [10], some [0]⟩] ≠ mTwo := by
  refine ⟨by norm_num [curr_alpha], by norm_num [computeBox, boxUpd, mTwo], ?_, ?_⟩
  · norm_num [pgaRun, Function.iterate_one, pgaStep, mapParams, bounded_init, clampT, extBelow,
      mTwo]
  · norm_num [mTwo]

/-- C6 (amended): the perturbation radius of epoch `e` is exactly
`alpha * (e / n_epochs)` (the definition of `curr_alpha`, src/ei_model.py
line 68): it is 0 at epoch 0, grows monotonically with the epoch, and never
exceeds `alpha`.  At epoch 0 the box is the degenerate box around the last
parameter-carrying layer, and for a primary model whose weight and bias
live in a SINGLE layer the adversarial model produced by the inner solver
(under any shape-preserving ascent step) equals the primary model; for
multi-layer models it is instead pinned to the last layer
(`C6_counterexample`). -/
theorem C6_radius_warmup (alpha : ℚ) (halpha : 0 ≤ alpha) (n e1 e2 : ℕ) (he : e1 ≤ e2)
    (hen : e2 ≤ n) (E : ExtFn)
    (hshape : ∀ mm q, modelShape (E.advStep mm q) = modelShape mm)
    (w b : List ℚ) (Xe : List (List ℚ)) (Ze : List ℚ) (abstol prev : ℚ) (iters : ℕ) :
    curr_alpha alpha 0 n = 0 ∧
      curr_alpha alpha e1 n ≤ curr_alpha alpha e2 n ∧
      curr_alpha alpha e2 n ≤ alpha ∧
      computeBox 0 [⟨some w, some b⟩]
        = ⟨some (w.map fun v => v - 0), some (w.map fun v => v + 0),
            some (b.map fun v => v - 0), some (b.map fun v => v + 0)⟩ ∧
      (pgaRun iters E Xe Ze
          (mapParams (fun t => clampT t (w.map fun v => v - 0) (w.map fun v => v + 0))
            (fun t => clampT t (b.map fun v => v - 0) (b.map fun v => v + 0)))
          abstol
          ⟨[⟨some w, some b⟩],
            bounded_init (fun t => clampT t (w.map fun v => v - 0) (w.map fun v => v + 0))
              (fun t => clampT t (b.map fun v => v - 0) (b.map fun v => v + 0))
              [⟨some w, some b⟩],
            0, prev, false⟩).model_adv = [⟨some w, some b⟩] := by
  refine ⟨by simp [curr_alpha], ?_, ?_, ?_, ?_⟩
  · unfold curr_alpha
    by_cases hn : (n : ℚ) = 0
    · simp [hn]
    · have hnpos : 0 < (n : ℚ) := lt_of_le_of_ne (Nat.cast_nonneg n) (Ne.symm hn)
      exact mul_le_mul_of_nonneg_left
        ((div_le_div_iff_of_pos_right hnpos).mpr (by exact_mod_cast he)) halpha
  · unfold curr_alpha
    by_cases hn : (n : ℚ) = 0
    · simpa [hn] using halpha
    · have hnpos : 0 < (n : ℚ) := lt_of_le_of_ne (Nat.cast_nonneg n) (Ne.symm hn)
      calc alpha * ((e2 : ℚ) / (n : ℚ))
          ≤ alpha * 1 :=
            mul_le_mul_of_nonneg_left ((div_le_one hnpos).mpr (by exact_mod_cast hen)) halpha
        _ = alpha := mul_one alpha
  · rw [computeBox_eq]
    rfl
  · exact pgaRun_zero_radius E hshape w b Xe Ze abstol iters _ (proj_zero_single rfl)

/-- C6 witness: the amended statement instantiated at `alpha = 1`,
`n_epochs = 10`, epochs 2 and 5, the identity ascent step, and the
single-layer model with weight `[3]` and bias `[4]`. -/
theorem C6_witness :
    (0 : ℚ) ≤ 1 ∧ (2 : ℕ) ≤ 5 ∧ (5 : ℕ) ≤ 10 ∧
      (curr_alpha 1 0 10 = 0 ∧
        curr_alpha 1 2 10 ≤ curr_alpha 1 5 10 ∧
        curr_alpha 1 5 10 ≤ 1 ∧
        computeBox 0 [⟨some [3], some [4]⟩]
          = ⟨some ([3].map fun v => v - 0), some ([3].map fun v => v + 0),
              some ([4].map fun v => v - 0), some ([4].map fun v => v + 0)⟩ ∧
        (pgaRun 2 extAbove [] []
            (mapParams (fun t => clampT t ([3].map fun v => v - 0) ([3].map fun v => v + 0))
              (fun t => clampT t ([4].map fun v => v - 0) ([4].map fun v => v + 0)))
            1
            ⟨[⟨some [3], some [4]⟩],
              bounded_init (fun t => clampT t ([3].map fun v => v - 0) ([3].map fun v => v + 0))
                (fun t => clampT t ([4].map fun v => v - 0) ([4].map fun v => v + 0))
                [⟨some [3], some [4]⟩],
              0, 0, false⟩).model_adv = [⟨some [3], some [4]⟩]) :=
  ⟨by norm_num, by decide, by decide,
    C6_radius_warmup 1 (by norm_num) 10 2 5 (by decide) (by decide) extAbove (fun _ _ => rfl)
      [3] [4] [] [] 1 0 2⟩

/-- A one-layer model whose bias tensor has two elements. -/
def mBad : Model := [⟨some [1], some [0, 0]⟩]

/-- If any layer of the model carries a bias tensor that does not have
exactly one element, the predict-path box loop raises the `RuntimeError`
of `Tensor.item()`, whatever the accumulator state. -/
lemma computeBoxPredict_bad (r : ℚ) (ls : List Layer)
    (h : ∃ l ∈ ls, ∃ b, l.bias = some b ∧ b.length ≠ 1) :
    ∀ acc : BoxP, computeBoxPredict r ls acc = .error .runtimeItem := by
  induction ls with
  | nil => simp at h
  | cons l ls ih =>
    intro acc
    unfold computeBoxPredict
    cases hb : l.bias with
    | none =>
      obtain ⟨l2, hl2, b2, hb2, hlen2⟩ := h
      rcases List.mem_cons.mp hl2 with rfl | hl2
      · rw [hb] at hb2
        cases hb2
      · exact ih ⟨l2, hl2, b2, hb2, hlen2⟩ _
    | some b =>
      unfold tensorItem
      by_cases hlb : b.length = 1
      · simp only [if_pos hlb]
        obtain ⟨l2, hl2, b2, hb2, hlen2⟩ := h
        rcases List.mem_cons.mp hl2 with rfl | hl2
        · rw [hb] at hb2
          injection hb2 with hb2
          subst hb2
          exact absurd hlb hlen2
        · exact ih ⟨l2, hl2, b2, hb2, hlen2⟩ _
      · simp only [if_neg hlb]

/-- C10: whenever at least one prediction is below `tau` and some layer of
the model carries a bias tensor with more than one element (or an empty
one), `EIModel.predict` fails with the `RuntimeError` raised by
`bias.data.item()` while extracting the scalar bias box bounds, whereas the
training path on the same model and data returns normally — its box loop
keeps the bias bounds as tensors and never calls `.item()`. -/
theorem C10_predict_bias_item_error (E : ExtFn) (tau alpha lamb currAlpha abstol : ℚ)
    (iters : ℕ) (m : Model) (ds : Dataset) (prev : ℚ)
    (hbelow : 0 < countBelow (E.fwd m ds.X) tau)
    (hbad : ∃ l ∈ m, ∃ b, l.bias = some b ∧ b.length ≠ 1)
    (wmin wmax bmin bmax : List ℚ)
    (hbox : computeBox currAlpha m = ⟨some wmin, some wmax, some bmin, some bmax⟩) :
    EIModel.predict E tau alpha abstol iters m ds = .error .runtimeItem ∧
      exceptOk (EIModel.trainBatch E tau lamb currAlpha abstol iters ds m prev
        (ds.X, ds.Y, ds.Z)) = true := by
  constructor
  · simp only [EIModel.predict, if_pos hbelow, computeBoxPredict_bad alpha m hbad]
  · simp only [EIModel.trainBatch, Prod.fst, Prod.snd]
    rw [if_pos hbelow, hbox]
    rfl

/-- C10 witness: on the model `mBad`, whose only layer has the two-element
bias `[0, 0]`, with every prediction below the threshold, `predict` raises
the `.item()` `RuntimeError` while the training batch step succeeds. -/
theorem C10_witness :
    0 < countBelow (extBelow.fwd mBad dsOne.X) 1 ∧
      computeBox 0 mBad = ⟨some [1], some [1], some [0, 0], some [0, 0]⟩ ∧
      (EIModel.predict extBelow 1 1 1 2 mBad dsOne = .error .runtimeItem ∧
        exceptOk (EIModel.trainBatch extBelow 1 1 0 1 2 dsOne mBad 0
          (dsOne.X, dsOne.Y, dsOne.Z)) = true) :=
  ⟨by decide, by norm_num [computeBox, boxUpd, mBad],
    C10_predict_bias_item_error extBelow 1 1 1 0 1 2 mBad dsOne 0 (by decide)
      ⟨⟨some [1], some [0, 0]⟩, List.mem_singleton_self _, [0, 0], rfl, by decide⟩
      [1] [1] [0, 0] [0, 0] (by norm_num [computeBox, boxUpd, mBad])⟩
